import Mathlib

/-!
Shallow embedding of the core data pipeline of `src/App.py`
(macro-equity-intelligence): alignment of a daily equity price series with
a lower-frequency macro (CPI) series, Base-100 index construction, and the
derived summary statistics.

Dates are modelled as naturals (ordinal days), float cell values as
rationals; `Option ℚ` models a nullable cell (a pandas NaN).  Series dates
are strictly increasing per the data model (spec §3), so the exact-date
left join of line 43 associates at most one macro row with a trading date;
the `lookup` below takes the first exact-date match accordingly.
-/

namespace MacroApp

abbrev Date := Nat

/-- A row of the joined frame produced by `djia.join(cpi, how='left')`
(src/App.py line 43): the trading date, the (nullable) closing price and
the (nullable) macro value. -/
structure Row where
  date : Date
  djia : Option ℚ
  cpi : Option ℚ
deriving Repr, DecidableEq

/-- Line 39, `cpi = cpi.loc[start:end]`: restrict the macro series to the
requested window, inclusive on both ends as pandas label slicing is. -/
def filterRange (cpi : List (Date × ℚ)) (s e : Date) : List (Date × ℚ) :=
  cpi.filter (fun cv => decide (s ≤ cv.1) && decide (cv.1 ≤ e))

/-- The exact-date lookup performed by the left join of line 43: the macro
value whose date equals the given trading date, if any. -/
def lookup (cpi : List (Date × ℚ)) (d : Date) : Option ℚ :=
  (cpi.find? (fun cv => cv.1 == d)).map (fun cv => cv.2)

/-- Line 43, `djia.join(cpi, how='left')`: keep exactly the price calendar,
attach the macro value at trading dates where one exists, null elsewhere.
A macro reading dated off the price calendar matches no row and is
discarded by this join. -/
def leftJoin (djia : List (Date × Option ℚ)) (cpi : List (Date × ℚ)) : List Row :=
  djia.map (fun dp => { date := dp.1, djia := dp.2, cpi := lookup cpi dp.1 })

/-- Line 43, `.ffill()`: forward-fill both columns, threading the last
non-null observation of each column (`pacc` for the price column, `cacc`
for the macro column) down the frame. -/
def ffillGo : Option ℚ → Option ℚ → List Row → List Row
  | _, _, [] => []
  | pacc, cacc, r :: rs =>
    { date := r.date, djia := r.djia <|> pacc, cpi := r.cpi <|> cacc } ::
      ffillGo (r.djia <|> pacc) (r.cpi <|> cacc) rs

/-- Line 43, `.ffill()`, starting with no prior observation in either
column. -/
def ffill (rows : List Row) : List Row := ffillGo none none rows

/-- A row survives `.dropna()` iff both cells are non-null; a surviving row
carries its unwrapped values. -/
def toClean (r : Row) : Option (Date × ℚ × ℚ) :=
  match r.djia, r.cpi with
  | some p, some c => some (r.date, p, c)
  | _, _ => none

/-- Line 43, `.dropna()`: drop every row that still has a null cell after
the forward fill. -/
def dropna (rows : List Row) : List (Date × ℚ × ℚ) :=
  rows.filterMap toClean

/-- The aligned frame computed by lines 39 and 43. -/
def alignRows (djia : List (Date × Option ℚ)) (cpi : List (Date × ℚ)) (s e : Date) :
    List (Date × ℚ × ℚ) :=
  dropna (ffill (leftJoin djia (filterRange cpi s e)))

/-- A row of the final frame returned by `get_data`: date, the two raw
columns and the three derived columns of lines 46-50. -/
structure ARow where
  date : Date
  djia : ℚ
  cpi : ℚ
  djiaIndexed : ℚ
  cpiIndexed : ℚ
  realValue : ℚ
deriving Repr, DecidableEq

/-- The failure modes of the script, named after the spec's taxonomy (§7).
`insufficientData` models the IndexError raised by `.iloc[0]` (line 46) on
an empty frame — the spec's name for the empty-alignment failure; every
exception surfaces through the script's blanket `except` at line 103.
`invalidInput` and `undefinedCorrelation` name the spec's other two typed
failures; the script has no raise site for either. -/
inductive AppError where
  | insufficientData
  | invalidInput
  | undefinedCorrelation
deriving Repr, DecidableEq

/-- Lines 46-50 for one aligned row, given the first aligned row's raw
price `p0` and raw macro value `c0`:
`DJIA_Indexed = DJIA / DJIA.iloc[0] * 100`,
`CPI_Indexed = CPI / CPI.iloc[0] * 100`,
`Real_Value = DJIA_Indexed / CPI_Indexed * 100`. -/
def indexRow (p0 c0 : ℚ) (x : Date × ℚ × ℚ) : ARow :=
  { date := x.1, djia := x.2.1, cpi := x.2.2,
    djiaIndexed := x.2.1 / p0 * 100,
    cpiIndexed := x.2.2 / c0 * 100,
    realValue := (x.2.1 / p0 * 100) / (x.2.2 / c0 * 100) * 100 }

/-- Lines 38-51 of `get_data`, after the two fetches: filter the macro
series to the window, left-join onto the price calendar, forward-fill,
drop nulls, then attach the three index columns.  On an empty aligned
frame, `.iloc[0]` raises (modelled `insufficientData`); otherwise the
frame is returned. -/
def get_data (djia : List (Date × Option ℚ)) (cpi : List (Date × ℚ)) (s e : Date) :
    Except AppError (List ARow) :=
  match alignRows djia cpi s e with
  | [] => Except.error AppError.insufficientData
  | (d0, p0, c0) :: rest => Except.ok (((d0, p0, c0) :: rest).map (indexRow p0 c0))

/-! ### Summary statistics (lines 68-71 and 83-98) -/

/-- Arithmetic mean of a column. -/
def mean (xs : List ℚ) : ℚ := xs.sum / (xs.length : ℚ)

/-- Sum of squared deviations from the mean; zero exactly when the column
is constant (zero variance). -/
def sumSqDev (xs : List ℚ) : ℚ := (xs.map (fun x => (x - mean xs) ^ 2)).sum

/-- Sum of products of the two columns' deviations (the covariance sum). -/
def covDev (xs ys : List ℚ) : ℚ :=
  ((xs.zip ys).map (fun p => (p.1 - mean xs) * (p.2 - mean ys))).sum

/-- Line 71, `data['DJIA_Indexed'].corr(data['CPI_Indexed'])`: Pearson
correlation.  pandas computes `cov / (std_x * std_y)`; when either column
has zero variance the division is `0 / 0` and the call returns NaN —
modelled as `none`.  A defined correlation equals `c / Real.sqrt d` for
the returned pair `(c, d) = (covariance sum, product of the squared
deviation sums)`; the pair is kept exact because the square root of a
rational is in general irrational. -/
def corrRepr (xs ys : List ℚ) : Option (ℚ × ℚ) :=
  if sumSqDev xs = 0 ∨ sumSqDev ys = 0 then none
  else some (covDev xs ys, sumSqDev xs * sumSqDev ys)

/-- The float comparison `corr > t` of lines 83-88 for a threshold `t > 0`:
false for NaN (`none`), and for a defined correlation `c / Real.sqrt d`
with `d > 0` it holds exactly when `0 < c` and `t ^ 2 * d < c ^ 2`. -/
def corrGtRepr : Option (ℚ × ℚ) → ℚ → Bool
  | none, _ => false
  | some cd, t => decide (0 < cd.1 ∧ t ^ 2 * cd.2 < cd.1 ^ 2)

/-- The float comparison `corr < t` of line 85 for a threshold `t > 0`:
false for NaN (`none`), and for a defined correlation `c / Real.sqrt d`
with `d > 0` it holds exactly when `c ≤ 0` or `c ^ 2 < t ^ 2 * d`. -/
def corrLtRepr : Option (ℚ × ℚ) → ℚ → Bool
  | none, _ => false
  | some cd, t => decide (cd.1 ≤ 0 ∨ cd.1 ^ 2 < t ^ 2 * cd.2)

/-- Lines 83-88: the commentary branch selected from the correlation.  A
NaN correlation fails both float comparisons, so it falls through to the
middle branch. -/
def sentiment (c : Option (ℚ × ℚ)) : String :=
  if corrGtRepr c (7 / 10) then
    "High positive correlation detected. The Dow is currently scaling with monetary expansion/inflation."
  else if corrLtRepr c (3 / 10) then
    "Low correlation. Market drivers are likely decoupled from CPI fluctuations (e.g., Tech-driven growth)."
  else
    "Moderate correlation. Market is sensitive but not entirely dictated by CPI trends."

/-- The scalar insights of lines 68-71 plus the selected commentary. -/
structure Report where
  totalReturn : ℚ
  realReturn : ℚ
  erosion : ℚ
  corr : Option (ℚ × ℚ)
  commentary : String
deriving Repr, DecidableEq

/-- Lines 68-71 and 83-88 over the frame returned by `get_data`:
`.iloc[-1]` on an empty frame would raise (modelled `insufficientData`,
unreachable for `get_data` outputs); otherwise the reductions are total
and no exception is raised — in particular the correlation call never
raises, it returns NaN on zero variance. -/
def buildReport (rows : List ARow) : Except AppError Report :=
  match rows.getLast? with
  | none => Except.error AppError.insufficientData
  | some last =>
    let tr := (last.djiaIndexed / 100 - 1) * 100
    let rr := (last.realValue / 100 - 1) * 100
    let c := corrRepr (rows.map (fun r => r.djiaIndexed)) (rows.map (fun r => r.cpiIndexed))
    Except.ok { totalReturn := tr, realReturn := rr, erosion := tr - rr,
                corr := c, commentary := sentiment c }

/-- The whole guarded body of lines 52-104: compute the frame, then the
insight scalars; any exception surfaces as the single caught error. -/
def runScript (djia : List (Date × Option ℚ)) (cpi : List (Date × ℚ)) (s e : Date) :
    Except AppError Report :=
  get_data djia cpi s e >>= buildReport

/-! ### Analysis vocabulary

Definitions used to state what the alignment computes.  `carriedAt`
describes the value a forward-filled column holds at a given date;
`recentAnchor` specialises it to the macro column produced by the
exact-date left join; `specForwardFill` is the fill rule as the spec words
it, for comparison. -/

/-- The value a forward-filled column holds at date `d`: the last non-null
observation among the column's entries dated at or before `d`, falling
back to the initial carried value `init`. -/
def carriedAt (col : List (Date × Option ℚ)) (init : Option ℚ) (d : Date) : Option ℚ :=
  col.foldl (fun acc x => if x.1 ≤ d then x.2 <|> acc else acc) init

/-- The macro value the code's fill attaches at price date `d`: the
exact-date lookups of the price calendar `pd`, forward-filled up to `d`.
For strictly increasing calendars this is the value of the macro reading
at the latest price-calendar date at or before `d` that carries one
(`recentAnchor_eq_some_iff` below makes this precise). -/
def recentAnchor (pd : List Date) (F : List (Date × ℚ)) (d : Date) : Option ℚ :=
  carriedAt (pd.map (fun c => (c, lookup F c))) none d

/-- The forward fill as the spec words it (spec §4.1 step 2): the most
recent macro value dated at or before the price date, whether or not that
reading's date lies on the price calendar.  Stated for an ascending macro
series, whose last in-range entry is the most recent. -/
def specForwardFill (cpi : List (Date × ℚ)) (d : Date) : Option ℚ :=
  ((cpi.filter (fun cv => decide (cv.1 ≤ d))).getLast?).map (fun cv => cv.2)

/-! ### Basic lemmas about the fill and the lookup -/

theorem carriedAt_nil (init : Option ℚ) (d : Date) : carriedAt [] init d = init := rfl

theorem carriedAt_cons (x : Date × Option ℚ) (col : List (Date × Option ℚ))
    (init : Option ℚ) (d : Date) :
    carriedAt (x :: col) init d =
      carriedAt col (if x.1 ≤ d then x.2 <|> init else init) d := rfl

theorem carriedAt_concat (col : List (Date × Option ℚ)) (x : Date × Option ℚ)
    (init : Option ℚ) (d : Date) :
    carriedAt (col ++ [x]) init d =
      if x.1 ≤ d then x.2 <|> carriedAt col init d else carriedAt col init d := by
  unfold carriedAt
  rw [List.foldl_concat]

theorem carriedAt_of_forall_gt (col : List (Date × Option ℚ)) (init : Option ℚ) (d : Date)
    (h : ∀ x ∈ col, ¬ x.1 ≤ d) : carriedAt col init d = init := by
  induction col generalizing init with
  | nil => rfl
  | cons x col ih =>
    rw [carriedAt_cons, if_neg (h x (List.mem_cons_self x col))]
    exact ih init (fun y hy => h y (List.mem_cons_of_mem _ hy))

theorem carriedAt_eq_none_iff (col : List (Date × Option ℚ)) (init : Option ℚ) (d : Date) :
    carriedAt col init d = none ↔ init = none ∧ ∀ c v, c ≤ d → (c, some v) ∉ col := by
  induction col generalizing init with
  | nil => simp [carriedAt_nil]
  | cons x col ih =>
    obtain ⟨x1, xv⟩ := x
    rw [carriedAt_cons, ih]
    by_cases hxd : x1 ≤ d
    · cases xv with
      | none =>
        simp only [if_pos hxd, Option.none_orElse]
        constructor
        · rintro ⟨hi, hall⟩
          refine ⟨hi, fun c v hc hm => ?_⟩
          rcases List.mem_cons.mp hm with h | h
          · exact Option.noConfusion (congrArg Prod.snd h)
          · exact hall c v hc h
        · rintro ⟨hi, hall⟩
          exact ⟨hi, fun c v hc hm => hall c v hc (List.mem_cons_of_mem _ hm)⟩
      | some w =>
        simp only [if_pos hxd, Option.some_orElse]
        constructor
        · rintro ⟨hi, -⟩
          exact Option.noConfusion hi
        · rintro ⟨-, hall⟩
          exact absurd (List.mem_cons_self _ _) (hall x1 w hxd)
    · simp only [if_neg hxd]
      constructor
      · rintro ⟨hi, hall⟩
        refine ⟨hi, fun c v hc hm => ?_⟩
        rcases List.mem_cons.mp hm with h | h
        · have hcx : c = x1 := congrArg Prod.fst h
          exact hxd (hcx ▸ hc)
        · exact hall c v hc h
      · rintro ⟨hi, hall⟩
        exact ⟨hi, fun c v hc hm => hall c v hc (List.mem_cons_of_mem _ hm)⟩

theorem lookup_eq_some_mem {F : List (Date × ℚ)} {d : Date} {v : ℚ}
    (h : lookup F d = some v) : (d, v) ∈ F := by
  unfold lookup at h
  obtain ⟨cv, hfind, hmap⟩ := Option.map_eq_some'.mp h
  have hm := List.mem_of_find?_eq_some hfind
  have hp : cv.1 = d := by simpa using List.find?_some hfind
  obtain ⟨c1, c2⟩ := cv
  simp only at hmap hp
  rw [← hp, ← hmap] at *
  exact hm

theorem lookup_eq_none_iff (F : List (Date × ℚ)) (d : Date) :
    lookup F d = none ↔ ∀ v, (d, v) ∉ F := by
  unfold lookup
  simp only [Option.map_eq_none', List.find?_eq_none, beq_iff_eq]
  constructor
  · intro h v hv
    exact absurd rfl (h (d, v) hv)
  · rintro h ⟨x1, x2⟩ hx hbeq
    simp only at hbeq
    rw [hbeq] at hx
    exact h x2 hx

theorem date_injective {F : List (Date × ℚ)} (hF : F.Pairwise (fun a b => a.1 < b.1))
    {d : Date} {v v' : ℚ} (h1 : (d, v) ∈ F) (h2 : (d, v') ∈ F) : v = v' := by
  by_contra hne
  have hpair : F.Pairwise (fun a b => a.1 ≠ b.1) :=
    hF.imp (fun h => Nat.ne_of_lt h)
  have hsym : Symmetric (fun a b : Date × ℚ => a.1 ≠ b.1) :=
    fun _ _ h he => h he.symm
  have := hpair.forall hsym h1 h2 (fun he => hne (congrArg Prod.snd he))
  exact this rfl

theorem lookup_eq_some_iff {F : List (Date × ℚ)} (hF : F.Pairwise (fun a b => a.1 < b.1))
    (d : Date) (v : ℚ) : lookup F d = some v ↔ (d, v) ∈ F := by
  constructor
  · exact lookup_eq_some_mem
  · intro hm
    cases hl : lookup F d with
    | none => exact absurd hm ((lookup_eq_none_iff F d).mp hl v)
    | some w => rw [date_injective hF (lookup_eq_some_mem hl) hm]

/-- What the forward fill holds at date `d`, for a column with strictly
increasing dates and no prior observation: the value of the latest
non-null entry dated at or before `d`. -/
theorem carriedAt_none_eq_some_iff :
    ∀ (col : List (Date × Option ℚ)), col.Pairwise (fun a b => a.1 < b.1) →
    ∀ (d : Date) (v : ℚ),
      carriedAt col none d = some v ↔
        ∃ c, c ≤ d ∧ (c, some v) ∈ col ∧
          ∀ c' v', c' ≤ d → (c', some v') ∈ col → c' ≤ c := by
  intro col
  induction col using List.reverseRecOn with
  | nil =>
    intro _ d v
    simp [carriedAt_nil]
  | append_singleton l x ihl =>
    intro hsort d v
    obtain ⟨hl, -, hlx⟩ := List.pairwise_append.mp hsort
    obtain ⟨x1, xv⟩ := x
    have hlx' : ∀ a ∈ l, a.1 < x1 :=
      fun a ha => hlx a ha (x1, xv) (List.mem_singleton_self _)
    rw [carriedAt_concat]
    by_cases hxd : x1 ≤ d
    · rw [if_pos hxd]
      cases xv with
      | some w =>
        simp only [Option.some_orElse]
        constructor
        · intro hw
          have hvw : w = v := Option.some.inj hw
          subst hvw
          refine ⟨x1, hxd, List.mem_append_right _ (List.mem_singleton_self _), ?_⟩
          intro c' v' hc' hm
          rcases List.mem_append.mp hm with h | h
          · exact Nat.le_of_lt (hlx' _ h)
          · have : c' = x1 := congrArg Prod.fst (List.mem_singleton.mp h)
            exact Nat.le_of_eq this
        · rintro ⟨c, hcd, hcm, hmax⟩
          have hxc : x1 ≤ c :=
            hmax x1 w hxd (List.mem_append_right _ (List.mem_singleton_self _))
          rcases List.mem_append.mp hcm with h | h
          · exact absurd (hlx' _ h) (Nat.not_lt.mpr hxc)
          · have h' := List.mem_singleton.mp h
            have : w = v := Option.some.inj (congrArg Prod.snd h').symm
            rw [this]
      | none =>
        simp only [Option.none_orElse]
        rw [ihl hl d v]
        constructor
        · rintro ⟨c, hcd, hcm, hmax⟩
          refine ⟨c, hcd, List.mem_append_left _ hcm, ?_⟩
          intro c' v' hc' hm
          rcases List.mem_append.mp hm with h | h
          · exact hmax c' v' hc' h
          · exact Option.noConfusion (congrArg Prod.snd (List.mem_singleton.mp h))
        · rintro ⟨c, hcd, hcm, hmax⟩
          rcases List.mem_append.mp hcm with h | h
          · exact ⟨c, hcd, h, fun c' v' hc' hm =>
              hmax c' v' hc' (List.mem_append_left _ hm)⟩
          · exact Option.noConfusion (congrArg Prod.snd (List.mem_singleton.mp h))
    · rw [if_neg hxd, ihl hl d v]
      constructor
      · rintro ⟨c, hcd, hcm, hmax⟩
        refine ⟨c, hcd, List.mem_append_left _ hcm, ?_⟩
        intro c' v' hc' hm
        rcases List.mem_append.mp hm with h | h
        · exact hmax c' v' hc' h
        · have : c' = x1 := congrArg Prod.fst (List.mem_singleton.mp h)
          exact absurd (this ▸ hc') hxd
      · rintro ⟨c, hcd, hcm, hmax⟩
        rcases List.mem_append.mp hcm with h | h
        · exact ⟨c, hcd, h, fun c' v' hc' hm =>
            hmax c' v' hc' (List.mem_append_left _ hm)⟩
        · have : c = x1 := congrArg Prod.fst (List.mem_singleton.mp h)
          exact absurd (this ▸ hcd) hxd

/-- The forward fill followed by `.dropna()`, characterised row by row:
for a frame with strictly increasing dates, a row survives exactly when
both forward-filled columns resolve at its date, and it then carries the
columns' carried values at that date. -/
theorem dropna_ffillGo_char :
    ∀ (rows : List Row), ((rows.map Row.date).Pairwise (· < ·)) →
    ∀ (pacc cacc : Option ℚ),
      dropna (ffillGo pacc cacc rows) =
        rows.filterMap (fun r =>
          match carriedAt (rows.map (fun x => (x.date, x.djia))) pacc r.date,
                carriedAt (rows.map (fun x => (x.date, x.cpi))) cacc r.date with
          | some p, some c => some (r.date, p, c)
          | _, _ => none) := by
  intro rows
  induction rows with
  | nil =>
    intro _ pacc cacc
    rfl
  | cons r rs ih =>
    intro hsort pacc cacc
    have hsort' : (rs.map Row.date).Pairwise (· < ·) :=
      (List.pairwise_cons.mp hsort).2
    have hlt : ∀ x ∈ rs, r.date < x.date := by
      intro x hx
      exact (List.pairwise_cons.mp hsort).1 _ (List.mem_map_of_mem Row.date hx)
    have hheadP : carriedAt ((r :: rs).map (fun x => (x.date, x.djia))) pacc r.date
        = (r.djia <|> pacc) := by
      rw [List.map_cons, carriedAt_cons, if_pos (Nat.le_refl r.date)]
      refine carriedAt_of_forall_gt _ _ _ ?_
      intro y hy
      obtain ⟨x, hx, rfl⟩ := List.mem_map.mp hy
      exact Nat.not_le.mpr (hlt x hx)
    have hheadC : carriedAt ((r :: rs).map (fun x => (x.date, x.cpi))) cacc r.date
        = (r.cpi <|> cacc) := by
      rw [List.map_cons, carriedAt_cons, if_pos (Nat.le_refl r.date)]
      refine carriedAt_of_forall_gt _ _ _ ?_
      intro y hy
      obtain ⟨x, hx, rfl⟩ := List.mem_map.mp hy
      exact Nat.not_le.mpr (hlt x hx)
    have htailP : ∀ x ∈ rs,
        carriedAt ((r :: rs).map (fun y => (y.date, y.djia))) pacc x.date
          = carriedAt (rs.map (fun y => (y.date, y.djia))) (r.djia <|> pacc) x.date := by
      intro x hx
      rw [List.map_cons, carriedAt_cons, if_pos (Nat.le_of_lt (hlt x hx))]
    have htailC : ∀ x ∈ rs,
        carriedAt ((r :: rs).map (fun y => (y.date, y.cpi))) cacc x.date
          = carriedAt (rs.map (fun y => (y.date, y.cpi))) (r.cpi <|> cacc) x.date := by
      intro x hx
      rw [List.map_cons, carriedAt_cons, if_pos (Nat.le_of_lt (hlt x hx))]
    have htail : List.filterMap toClean
        (ffillGo (r.djia <|> pacc) (r.cpi <|> cacc) rs)
        = rs.filterMap (fun x =>
            match carriedAt ((r :: rs).map (fun y => (y.date, y.djia))) pacc x.date,
                  carriedAt ((r :: rs).map (fun y => (y.date, y.cpi))) cacc x.date with
            | some p, some c => some (x.date, p, c)
            | _, _ => none) := by
      have h1 := ih hsort' (r.djia <|> pacc) (r.cpi <|> cacc)
      simp only [dropna] at h1
      rw [h1]
      symm
      apply List.filterMap_congr
      intro x hx
      dsimp only
      rw [htailP x hx, htailC x hx]
    rw [show ffillGo pacc cacc (r :: rs) =
        { date := r.date, djia := r.djia <|> pacc, cpi := r.cpi <|> cacc } ::
          ffillGo (r.djia <|> pacc) (r.cpi <|> cacc) rs from rfl]
    simp only [dropna, List.filterMap_cons]
    rw [htail, hheadP, hheadC]
    simp only [toClean]

/-- The aligned frame of line 43, row by row: a price date survives exactly
when both forward-filled columns resolve there, and it carries the price
column's carried value and the macro column's carried anchor value. -/
theorem alignRows_char (djia : List (Date × Option ℚ)) (cpi : List (Date × ℚ)) (s e : Date)
    (hd : djia.Pairwise (fun a b => a.1 < b.1)) :
    alignRows djia cpi s e =
      djia.filterMap (fun x =>
        match carriedAt djia none x.1,
              recentAnchor (djia.map (fun y => y.1)) (filterRange cpi s e) x.1 with
        | some p, some c => some (x.1, p, c)
        | _, _ => none) := by
  unfold alignRows ffill
  have hsort : ((leftJoin djia (filterRange cpi s e)).map Row.date).Pairwise (· < ·) := by
    unfold leftJoin
    rw [List.map_map]
    exact List.pairwise_map.mpr hd
  rw [dropna_ffillGo_char _ hsort none none]
  unfold leftJoin
  rw [List.filterMap_map]
  apply List.filterMap_congr
  intro x _
  have hcolP : ((djia.map (fun dp =>
      ({ date := dp.1, djia := dp.2, cpi := lookup (filterRange cpi s e) dp.1 } : Row))).map
        (fun y => (y.date, y.djia))) = djia := by
    rw [List.map_map]
    exact List.map_id'' (fun y => rfl) djia
  have hcolC : ((djia.map (fun dp =>
      ({ date := dp.1, djia := dp.2, cpi := lookup (filterRange cpi s e) dp.1 } : Row))).map
        (fun y => (y.date, y.cpi)))
      = (djia.map (fun y => y.1)).map (fun c => (c, lookup (filterRange cpi s e) c)) := by
    rw [List.map_map, List.map_map]
    rfl
  rw [Function.comp_apply, hcolP, hcolC]
  rfl

/-- The macro anchor resolves to `some v` exactly when `v` is the value of
the most recent in-range macro reading dated on the price calendar at or
before `d`. -/
theorem recentAnchor_eq_some_iff (pd : List Date) (F : List (Date × ℚ))
    (hpd : pd.Pairwise (· < ·)) (hF : F.Pairwise (fun a b => a.1 < b.1))
    (d : Date) (v : ℚ) :
    recentAnchor pd F d = some v ↔
      ∃ c, c ∈ pd ∧ c ≤ d ∧ (c, v) ∈ F ∧
        ∀ c' v', c' ∈ pd → c' ≤ d → (c', v') ∈ F → c' ≤ c := by
  unfold recentAnchor
  have hsort : (pd.map (fun c => (c, lookup F c))).Pairwise
      (fun a b : Date × Option ℚ => a.1 < b.1) :=
    List.pairwise_map.mpr hpd
  rw [carriedAt_none_eq_some_iff _ hsort d v]
  constructor
  · rintro ⟨c, hcd, hcm, hmax⟩
    obtain ⟨a, ha, hae⟩ := List.mem_map.mp hcm
    have ha1 : a = c := congrArg Prod.fst hae
    have ha2 : lookup F a = some v := congrArg Prod.snd hae
    subst ha1
    refine ⟨a, ha, hcd, lookup_eq_some_mem ha2, ?_⟩
    intro c' v' hc'pd hc'd hc'F
    refine hmax c' v' hc'd (List.mem_map.mpr ⟨c', hc'pd, ?_⟩)
    rw [(lookup_eq_some_iff hF c' v').mpr hc'F]
  · rintro ⟨c, hcpd, hcd, hcF, hmax⟩
    refine ⟨c, hcd, List.mem_map.mpr ⟨c, hcpd, ?_⟩, ?_⟩
    · rw [(lookup_eq_some_iff hF c v).mpr hcF]
    · intro c' v' hc'd hc'm
      obtain ⟨a, ha, hae⟩ := List.mem_map.mp hc'm
      have ha1 : a = c' := congrArg Prod.fst hae
      have ha2 : lookup F a = some v' := congrArg Prod.snd hae
      subst ha1
      exact hmax a v' ha hc'd (lookup_eq_some_mem ha2)

/-- The macro anchor is unresolved exactly when no in-range macro reading
is dated on the price calendar at or before `d`. -/
theorem recentAnchor_eq_none_iff (pd : List Date) (F : List (Date × ℚ)) (d : Date) :
    recentAnchor pd F d = none ↔ ∀ c v, c ∈ pd → c ≤ d → (c, v) ∉ F := by
  unfold recentAnchor
  rw [carriedAt_eq_none_iff]
  simp only [true_and]
  constructor
  · intro h c v hcpd hcd hcF
    have hsome : (lookup F c).isSome := by
      unfold lookup
      rw [Option.isSome_map']
      exact List.find?_isSome.mpr ⟨(c, v), hcF, by simp⟩
    obtain ⟨w, hw⟩ := Option.isSome_iff_exists.mp hsome
    exact h c w hcd (List.mem_map.mpr ⟨c, hcpd, by rw [hw]⟩)
  · intro h c v hcd hm
    obtain ⟨a, ha, hae⟩ := List.mem_map.mp hm
    have ha1 : a = c := congrArg Prod.fst hae
    have ha2 : lookup F a = some v := congrArg Prod.snd hae
    subst ha1
    exact h a v ha hcd (lookup_eq_some_mem ha2)

/-- Inversion for a successful `get_data` call: the aligned frame is
non-empty and the result indexes every aligned row against the first one. -/
theorem get_data_ok_elim {djia : List (Date × Option ℚ)} {cpi : List (Date × ℚ)}
    {s e : Date} {rows : List ARow} (h : get_data djia cpi s e = Except.ok rows) :
    ∃ d0 p0 c0 rest, alignRows djia cpi s e = (d0, p0, c0) :: rest ∧
      rows = ((d0, p0, c0) :: rest).map (indexRow p0 c0) := by
  unfold get_data at h
  cases hA : alignRows djia cpi s e with
  | nil =>
    rw [hA] at h
    exact Except.noConfusion h
  | cons hd tl =>
    obtain ⟨d0, p0, c0⟩ := hd
    rw [hA] at h
    exact ⟨d0, p0, c0, tl, rfl, (Except.ok.inj h).symm⟩

/-- A filterMap whose function only gates on an auxiliary option is a
filter followed by a map. -/
theorem filterMap_option_guard {α β γ : Type} (l : List α) (g : α → Option γ) (h : α → β) :
    l.filterMap (fun x => (g x).map (fun _ => h x))
      = (l.filter (fun x => (g x).isSome)).map h := by
  induction l with
  | nil => rfl
  | cons a l ih =>
    cases hg : g a <;>
      simp [List.filterMap_cons, List.filter_cons, hg, ih]

/-- Every aligned row's price value is a price reading dated at or before
the row, and its macro value is an in-range macro reading dated on the
price calendar at or before the row. -/
theorem mem_alignRows {djia : List (Date × Option ℚ)} {cpi : List (Date × ℚ)} {s e : Date}
    (hd : djia.Pairwise (fun a b => a.1 < b.1)) (hc : cpi.Pairwise (fun a b => a.1 < b.1))
    {d : Date} {p c : ℚ} (hm : (d, p, c) ∈ alignRows djia cpi s e) :
    (∃ cd, cd ≤ d ∧ (cd, some p) ∈ djia) ∧
    (∃ cd, cd ≤ d ∧ s ≤ cd ∧ cd ≤ e ∧ (cd, c) ∈ cpi ∧ cd ∈ djia.map (fun y => y.1)) := by
  have hF : (filterRange cpi s e).Pairwise (fun a b => a.1 < b.1) :=
    List.Pairwise.sublist (List.filter_sublist cpi) hc
  have hpd : (djia.map (fun y => y.1)).Pairwise (· < ·) :=
    List.pairwise_map.mpr hd
  rw [alignRows_char djia cpi s e hd] at hm
  obtain ⟨x, hx, hfx⟩ := List.mem_filterMap.mp hm
  cases hP : carriedAt djia none x.1 with
  | none =>
    rw [hP] at hfx
    cases hC : recentAnchor (djia.map (fun y => y.1)) (filterRange cpi s e) x.1 <;>
      rw [hC] at hfx <;> exact Option.noConfusion hfx
  | some p' =>
    cases hC : recentAnchor (djia.map (fun y => y.1)) (filterRange cpi s e) x.1 with
    | none => rw [hP, hC] at hfx; exact Option.noConfusion hfx
    | some c' =>
      rw [hP, hC] at hfx
      have hx1 : x.1 = d := congrArg (fun t => t.1) (Option.some.inj hfx)
      have hp' : p' = p := congrArg (fun t => t.2.1) (Option.some.inj hfx)
      have hc' : c' = c := congrArg (fun t => t.2.2) (Option.some.inj hfx)
      subst hx1 hp' hc'
      constructor
      · obtain ⟨cd, hcd, hmem, -⟩ :=
          (carriedAt_none_eq_some_iff djia hd _ _).mp hP
        exact ⟨cd, hcd, hmem⟩
      · obtain ⟨cd, hcdpd, hcdle, hcdF, -⟩ :=
          (recentAnchor_eq_some_iff _ _ hpd hF _ _).mp hC
        obtain ⟨hcdcpi, hrange⟩ := List.mem_filter.mp hcdF
        have hs : s ≤ cd ∧ cd ≤ e := by simpa using hrange
        exact ⟨cd, hcdle, hs.1, hs.2, hcdcpi, hcdpd⟩

/-- For a cleaned price series (no null price cells, spec §3) the price
column always resolves to the row's own price, so the aligned frame keeps
exactly the price dates whose macro anchor resolves, in order. -/
theorem alignRows_cleaned_char (djia' cpi : List (Date × ℚ)) (s e : Date)
    (hd : djia'.Pairwise (fun a b => a.1 < b.1)) :
    alignRows (djia'.map (fun y => (y.1, some y.2))) cpi s e =
      djia'.filterMap (fun x =>
        (recentAnchor (djia'.map (fun y => y.1)) (filterRange cpi s e) x.1).map
          (fun c => (x.1, x.2, c))) := by
  have hdm : (djia'.map (fun y => (y.1, some y.2))).Pairwise
      (fun a b : Date × Option ℚ => a.1 < b.1) :=
    List.pairwise_map.mpr hd
  have hpd : ((djia'.map (fun y => (y.1, some y.2))).map (fun y => y.1))
      = djia'.map (fun y => y.1) := by
    rw [List.map_map]
    rfl
  rw [alignRows_char _ cpi s e hdm, hpd, List.filterMap_map]
  apply List.filterMap_congr
  intro x hx
  have hcar : carriedAt (djia'.map (fun y => (y.1, some y.2))) none x.1 = some x.2 := by
    apply (carriedAt_none_eq_some_iff _ hdm x.1 x.2).mpr
    exact ⟨x.1, Nat.le_refl _, List.mem_map.mpr ⟨x, hx, rfl⟩, fun c' v' hc' _ => hc'⟩
  dsimp only [Function.comp]
  rw [hcar]
  cases recentAnchor (djia'.map (fun y => y.1)) (filterRange cpi s e) x.1 <;> rfl

/-! ### Claim theorems -/

/-- Claim C1, counterexample.  The claim says every price date receives
the most recent macro value dated at or before it.  With the price series
at date 2 only and a macro reading at date 1 (not a trading date), the
spec's fill resolves date 2 to value 5, yet the code's exact-date left
join discards the reading, the fill never sees it, `.dropna()` empties
the frame and `get_data` fails — date 2 is not in any result. -/
theorem C1_counterexample :
    specForwardFill [(1, (5 : ℚ))] 2 = some 5 ∧
      get_data [(2, some (10 : ℚ))] [(1, (5 : ℚ))] 0 10
        = Except.error AppError.insufficientData :=
  ⟨rfl, rfl⟩

/-- Claim C1, amended: for strictly increasing cleaned series, the
alignment keeps exactly the price dates whose macro anchor resolves, each
carrying the most recent macro value whose date is at or before it AND
itself lies on the price calendar (in range); macro readings dated off the
price calendar are never attached, and rows with no such anchor are
dropped. -/
theorem C1_fill_rule (djia' cpi : List (Date × ℚ)) (s e : Date)
    (hd : djia'.Pairwise (fun a b => a.1 < b.1))
    (hc : cpi.Pairwise (fun a b => a.1 < b.1)) :
    alignRows (djia'.map (fun y => (y.1, some y.2))) cpi s e =
      djia'.filterMap (fun x =>
        (recentAnchor (djia'.map (fun y => y.1)) (filterRange cpi s e) x.1).map
          (fun c => (x.1, x.2, c))) ∧
    ∀ d v, recentAnchor (djia'.map (fun y => y.1)) (filterRange cpi s e) d = some v ↔
      ∃ c, c ∈ djia'.map (fun y => y.1) ∧ c ≤ d ∧ (c, v) ∈ filterRange cpi s e ∧
        ∀ c' v', c' ∈ djia'.map (fun y => y.1) → c' ≤ d →
          (c', v') ∈ filterRange cpi s e → c' ≤ c := by
  refine ⟨alignRows_cleaned_char djia' cpi s e hd, fun d v => ?_⟩
  exact recentAnchor_eq_some_iff _ _ (List.pairwise_map.mpr hd)
    (List.Pairwise.sublist (List.filter_sublist cpi) hc) d v

/-- Witness for C1_fill_rule: the warm-up scenario with the macro series
starting one day after the price series; the first price-only day is
dropped and day 2 carries the day-2 reading. -/
theorem C1_fill_rule_witness :
    alignRows ([(1, (10 : ℚ)), (2, 11)].map (fun y => (y.1, some y.2))) [(2, (5 : ℚ))] 0 3 =
      [(1, (10 : ℚ)), (2, 11)].filterMap (fun x =>
        (recentAnchor ([(1, (10 : ℚ)), (2, 11)].map (fun y => y.1))
            (filterRange [(2, (5 : ℚ))] 0 3) x.1).map
          (fun c => (x.1, x.2, c))) :=
  (C1_fill_rule [(1, 10), (2, 11)] [(2, 5)] 0 3 (by decide) (by decide)).1

/-- Claim C4: whenever the alignment leaves zero rows, `get_data` fails
with the empty-alignment error (the spec's InsufficientDataError) and
returns no table. -/
theorem C4_empty_alignment (djia : List (Date × Option ℚ)) (cpi : List (Date × ℚ))
    (s e : Date) (h : alignRows djia cpi s e = []) :
    get_data djia cpi s e = Except.error AppError.insufficientData := by
  unfold get_data
  rw [h]

/-- Witness for C4_empty_alignment: price and macro series share no
overlapping dates, so the alignment is empty. -/
theorem C4_empty_alignment_witness :
    get_data [(1, some (2 : ℚ))] [(2, (3 : ℚ))] 0 5
      = Except.error AppError.insufficientData :=
  C4_empty_alignment [(1, some (2 : ℚ))] [(2, (3 : ℚ))] 0 5 rfl

/-- Claim C9: `get_data` is a pure function of its four arguments — two
runs on equal inputs return equal results; the embedding reads no other
state and performs no mutation. -/
theorem C9_deterministic (p1 p2 : List (Date × Option ℚ)) (c1 c2 : List (Date × ℚ))
    (s1 s2 e1 e2 : Date) (hp : p1 = p2) (hc : c1 = c2) (hs : s1 = s2) (he : e1 = e2) :
    get_data p1 c1 s1 e1 = get_data p2 c2 s2 e2 := by
  rw [hp, hc, hs, he]

/-- Witness for C9_deterministic at a concrete input. -/
theorem C9_deterministic_witness :
    get_data [(1, some (2 : ℚ))] [(1, (3 : ℚ))] 0 2
      = get_data [(1, some (2 : ℚ))] [(1, (3 : ℚ))] 0 2 :=
  C9_deterministic _ _ _ _ _ _ _ _ rfl rfl rfl rfl

/-- Claim C10, counterexample.  The claim says a null price at a
non-leading date is silently removed.  With a null price at date 2,
`.ffill()` fills the price column too: date 2 is KEPT, carrying the
previous day's price 10. -/
theorem C10_counterexample :
    (get_data [(1, some (10 : ℚ)), (2, none), (3, some 12)] [(1, (5 : ℚ))] 0 4).toOption.map
        (fun rows => rows.map (fun r => (r.date, r.djia)))
      = some [(1, 10), (2, 10), (3, 12)] := rfl

/-- Claim C10, amended: `.ffill()` forward-fills nulls in every column,
the price column included — a null price at a non-leading date is kept,
carrying the most recent non-null price dated at or before it; `.dropna()`
then removes exactly the rows in which a column is still unresolved after
the fill, and the output has no null in any column (it consists of plain
values). -/
theorem C10_ffill_price (djia : List (Date × Option ℚ)) (cpi : List (Date × ℚ)) (s e : Date)
    (hd : djia.Pairwise (fun a b => a.1 < b.1)) :
    alignRows djia cpi s e =
      djia.filterMap (fun x =>
        match carriedAt djia none x.1,
              recentAnchor (djia.map (fun y => y.1)) (filterRange cpi s e) x.1 with
        | some p, some c => some (x.1, p, c)
        | _, _ => none) ∧
    ∀ d p, carriedAt djia none d = some p ↔
      ∃ c, c ≤ d ∧ (c, some p) ∈ djia ∧
        ∀ c' p', c' ≤ d → (c', some p') ∈ djia → c' ≤ c :=
  ⟨alignRows_char djia cpi s e hd,
   fun d p => carriedAt_none_eq_some_iff djia hd d p⟩

/-- Witness for C10_ffill_price at the null-price input of the
counterexample. -/
theorem C10_ffill_price_witness :
    alignRows [(1, some (10 : ℚ)), (2, none), (3, some 12)] [(1, (5 : ℚ))] 0 4 =
      [(1, some (10 : ℚ)), (2, none), (3, some 12)].filterMap (fun x =>
        match carriedAt [(1, some (10 : ℚ)), (2, none), (3, some 12)] none x.1,
              recentAnchor ([(1, some (10 : ℚ)), (2, none), (3, some 12)].map (fun y => y.1))
                (filterRange [(1, (5 : ℚ))] 0 4) x.1 with
        | some p, some c => some (x.1, p, c)
        | _, _ => none) :=
  (C10_ffill_price [(1, some (10 : ℚ)), (2, none), (3, some 12)] [(1, (5 : ℚ))] 0 4
    (by decide)).1

/-- Claim C7, counterexample.  The claim says a zero or negative input
value makes the computation fail with InvalidInputError; the code has no
validation at all: with a zero macro value `get_data` succeeds and
returns a table (in the source the float divisions yield non-finite
values, never an exception). -/
theorem C7_counterexample :
    (get_data [(1, some (10 : ℚ))] [(1, (0 : ℚ))] 0 2).isOk = true := rfl

/-- Claim C8, counterexample.  The claim says a zero-variance index column
makes the correlation computation fail with UndefinedCorrelationError;
instead pandas returns NaN (modelled `none`), no error is raised, and the
NaN silently selects the moderate-correlation commentary. -/
theorem C8_counterexample :
    (runScript [(1, some (10 : ℚ)), (2, some 12)] [(1, (5 : ℚ))] 0 3).toOption.map
        (fun r => (r.corr, r.commentary))
      = some (none,
          "Moderate correlation. Market is sensitive but not entirely dictated by CPI trends.") := by
  have hcols : corrRepr
      ([indexRow 10 5 (1, 10, 5), indexRow 10 5 (2, 12, 5)].map (fun r => r.djiaIndexed))
      ([indexRow 10 5 (1, 10, 5), indexRow 10 5 (2, 12, 5)].map (fun r => r.cpiIndexed))
      = none := by
    unfold corrRepr
    rw [if_pos]
    right
    norm_num [sumSqDev, mean, indexRow]
  have hrun : runScript [(1, some (10 : ℚ)), (2, some 12)] [(1, (5 : ℚ))] 0 3
      = buildReport [indexRow 10 5 (1, 10, 5), indexRow 10 5 (2, 12, 5)] := rfl
  rw [hrun]
  unfold buildReport
  simp only [List.getLast?_cons, List.getLast?_nil, hcols]
  rfl

/-- Claim C2: on a successful run over positive-valued series, the first
row's price index and macro index both equal 100 exactly (hence within
any tolerance), because each index column is the raw column divided by
its own first value times 100. -/
theorem C2_base_100 (djia : List (Date × Option ℚ)) (cpi : List (Date × ℚ)) (s e : Date)
    (rows : List ARow) (r0 : ARow)
    (hd : djia.Pairwise (fun a b => a.1 < b.1)) (hc : cpi.Pairwise (fun a b => a.1 < b.1))
    (hpos : ∀ x ∈ djia, ∀ p, x.2 = some p → 0 < p) (hcpos : ∀ x ∈ cpi, 0 < x.2)
    (hok : get_data djia cpi s e = Except.ok rows) (h0 : rows.head? = some r0) :
    r0.djiaIndexed = 100 ∧ r0.cpiIndexed = 100 := by
  obtain ⟨d0, p0, c0, rest, hA, hrows⟩ := get_data_ok_elim hok
  subst hrows
  simp only [List.map_cons, List.head?_cons, Option.some.injEq] at h0
  have hmem : (d0, p0, c0) ∈ alignRows djia cpi s e := by
    rw [hA]; exact List.mem_cons_self _ _
  obtain ⟨⟨cd, -, hcdm⟩, ⟨ce, -, -, -, hcem, -⟩⟩ := mem_alignRows hd hc hmem
  have hp0 : 0 < p0 := hpos _ hcdm p0 rfl
  have hc0 : 0 < c0 := hcpos _ hcem
  rw [← h0]
  constructor
  · show p0 / p0 * 100 = 100
    rw [div_self (ne_of_gt hp0)]
    norm_num
  · show c0 / c0 * 100 = 100
    rw [div_self (ne_of_gt hc0)]
    norm_num

/-- Witness for C2_base_100: one positive price and macro reading on a
shared date. -/
theorem C2_base_100_witness :
    (indexRow 2 3 (1, 2, 3)).djiaIndexed = 100 ∧ (indexRow 2 3 (1, 2, 3)).cpiIndexed = 100 :=
  C2_base_100 [(1, some (2 : ℚ))] [(1, (3 : ℚ))] 0 2
    [indexRow 2 3 (1, 2, 3)] (indexRow 2 3 (1, 2, 3))
    (by decide) (by decide)
    (by
      rintro x hx p hp
      rw [List.mem_singleton.mp hx] at hp
      rw [← Option.some.inj hp]
      norm_num)
    (by
      rintro x hx
      rw [List.mem_singleton.mp hx]
      norm_num)
    rfl rfl

/-- Claim C3: on a successful run, every row's real-value column equals
the price index divided by the macro index times 100 — exactly, by
construction — and equivalently `(price / p0) / (macro / m0) * 100` for
the first aligned row's raw values `p0`, `m0`. -/
theorem C3_real_index (djia : List (Date × Option ℚ)) (cpi : List (Date × ℚ)) (s e : Date)
    (rows : List ARow) (r0 r : ARow) (hok : get_data djia cpi s e = Except.ok rows)
    (h0 : rows.head? = some r0) (hr : r ∈ rows) :
    r.realValue = r.djiaIndexed / r.cpiIndexed * 100 ∧
      r.realValue = (r.djia / r0.djia) / (r.cpi / r0.cpi) * 100 := by
  obtain ⟨d0, p0, c0, rest, hA, hrows⟩ := get_data_ok_elim hok
  subst hrows
  simp only [List.map_cons, List.head?_cons, Option.some.injEq] at h0
  obtain ⟨x, hxmem, hxeq⟩ := List.mem_map.mp hr
  subst hxeq
  rw [← h0]
  refine ⟨rfl, ?_⟩
  show (x.2.1 / p0 * 100) / (x.2.2 / c0 * 100) * 100
      = (x.2.1 / p0) / (x.2.2 / c0) * 100
  rw [mul_div_mul_comm]
  norm_num

/-- Witness for C3_real_index on a two-row run. -/
theorem C3_real_index_witness :
    (indexRow 2 3 (2, 4, 6)).realValue
        = (indexRow 2 3 (2, 4, 6)).djiaIndexed / (indexRow 2 3 (2, 4, 6)).cpiIndexed * 100 ∧
      (indexRow 2 3 (2, 4, 6)).realValue
        = ((indexRow 2 3 (2, 4, 6)).djia / (indexRow 2 3 (1, 2, 3)).djia)
            / ((indexRow 2 3 (2, 4, 6)).cpi / (indexRow 2 3 (1, 2, 3)).cpi) * 100 :=
  C3_real_index [(1, some (2 : ℚ)), (2, some 4)] [(1, (3 : ℚ)), (2, 6)] 0 2
    [indexRow 2 3 (1, 2, 3), indexRow 2 3 (2, 4, 6)]
    (indexRow 2 3 (1, 2, 3)) (indexRow 2 3 (2, 4, 6))
    rfl rfl (by simp)

/-- Claim C6: the macro series is restricted to `[start, end]` before the
join, so every row's macro value is the value of a macro reading dated
inside `[start, end]` (and at or before the row's date) — a reading dated
before `start` is never the fill anchor. -/
theorem C6_macro_in_range (djia : List (Date × Option ℚ)) (cpi : List (Date × ℚ)) (s e : Date)
    (rows : List ARow) (r : ARow)
    (hd : djia.Pairwise (fun a b => a.1 < b.1)) (hc : cpi.Pairwise (fun a b => a.1 < b.1))
    (hok : get_data djia cpi s e = Except.ok rows) (hr : r ∈ rows) :
    ∃ cd, s ≤ cd ∧ cd ≤ e ∧ cd ≤ r.date ∧ (cd, r.cpi) ∈ cpi := by
  obtain ⟨d0, p0, c0, rest, hA, hrows⟩ := get_data_ok_elim hok
  subst hrows
  obtain ⟨x, hxmem, hxeq⟩ := List.mem_map.mp hr
  subst hxeq
  have hmem : x ∈ alignRows djia cpi s e := by rw [hA]; exact hxmem
  obtain ⟨x1, x2, x3⟩ := x
  obtain ⟨-, ⟨cd, hcdle, hcs, hce, hcdcpi, -⟩⟩ := mem_alignRows hd hc hmem
  exact ⟨cd, hcs, hce, hcdle, hcdcpi⟩

/-- Witness for C6_macro_in_range: the macro reading carried at date 2 is
dated inside the window. -/
theorem C6_macro_in_range_witness :
    ∃ cd, 1 ≤ cd ∧ cd ≤ 3 ∧ cd ≤ (indexRow 2 3 (2, 4, 3)).date ∧
      (cd, (indexRow 2 3 (2, 4, 3)).cpi) ∈ [(1, (3 : ℚ)), (9, 7)] :=
  C6_macro_in_range [(1, some (2 : ℚ)), (2, some 4)] [(1, (3 : ℚ)), (9, 7)] 1 3
    [indexRow 2 3 (1, 2, 3), indexRow 2 3 (2, 4, 3)] (indexRow 2 3 (2, 4, 3))
    (by decide) (by decide) rfl (by simp)

/-- Claim C7, amended: under the positivity constraint no division by zero
occurs in the index construction — the two first-row divisors and every
`CPI_Indexed` divisor are non-zero — but when the constraint is violated
the code raises no InvalidInputError (see the counterexample): it has no
input validation. -/
theorem C7_no_div_by_zero (djia : List (Date × Option ℚ)) (cpi : List (Date × ℚ)) (s e : Date)
    (rows : List ARow)
    (hd : djia.Pairwise (fun a b => a.1 < b.1)) (hc : cpi.Pairwise (fun a b => a.1 < b.1))
    (hpos : ∀ x ∈ djia, ∀ p, x.2 = some p → 0 < p) (hcpos : ∀ x ∈ cpi, 0 < x.2)
    (hok : get_data djia cpi s e = Except.ok rows) :
    (∀ r0, rows.head? = some r0 → r0.djia ≠ 0 ∧ r0.cpi ≠ 0) ∧
    ∀ r ∈ rows, r.cpiIndexed ≠ 0 := by
  obtain ⟨d0, p0, c0, rest, hA, hrows⟩ := get_data_ok_elim hok
  subst hrows
  have hmem0 : (d0, p0, c0) ∈ alignRows djia cpi s e := by
    rw [hA]; exact List.mem_cons_self _ _
  obtain ⟨⟨cd, -, hcdm⟩, ⟨ce, -, -, -, hcem, -⟩⟩ := mem_alignRows hd hc hmem0
  have hp0 : 0 < p0 := hpos _ hcdm p0 rfl
  have hc0 : 0 < c0 := hcpos _ hcem
  constructor
  · intro r0 h0
    simp only [List.map_cons, List.head?_cons, Option.some.injEq] at h0
    rw [← h0]
    exact ⟨ne_of_gt hp0, ne_of_gt hc0⟩
  · intro r hr
    obtain ⟨x, hxmem, hxeq⟩ := List.mem_map.mp hr
    subst hxeq
    have hmem : x ∈ alignRows djia cpi s e := by rw [hA]; exact hxmem
    obtain ⟨x1, x2, x3⟩ := x
    obtain ⟨-, ⟨cd', -, -, -, hcdcpi', -⟩⟩ := mem_alignRows hd hc hmem
    have hx3 : 0 < x3 := hcpos _ hcdcpi'
    show x3 / c0 * 100 ≠ 0
    have : (0 : ℚ) < x3 / c0 * 100 := by positivity
    exact ne_of_gt this

/-- Witness for C7_no_div_by_zero on a positive-valued run. -/
theorem C7_no_div_by_zero_witness :
    (∀ r0, [indexRow 2 3 (1, 2, 3)].head? = some r0 → r0.djia ≠ 0 ∧ r0.cpi ≠ 0) ∧
    ∀ r ∈ [indexRow 2 3 (1, 2, 3)], r.cpiIndexed ≠ 0 :=
  C7_no_div_by_zero [(1, some (2 : ℚ))] [(1, (3 : ℚ))] 0 2 [indexRow 2 3 (1, 2, 3)]
    (by decide) (by decide)
    (by
      rintro x hx p hp
      rw [List.mem_singleton.mp hx] at hp
      rw [← Option.some.inj hp]
      norm_num)
    (by
      rintro x hx
      rw [List.mem_singleton.mp hx]
      norm_num)
    rfl

/-- Claim C8, amended: for a table with at least two rows in which either
index column has zero variance, the correlation is NaN (`none`), the
moderate-correlation commentary is selected (NaN fails both threshold
comparisons), and the report step still succeeds — no
UndefinedCorrelationError exists in the code, the NaN simply propagates. -/
theorem C8_nan_propagates (rows : List ARow) (h2 : 2 ≤ rows.length)
    (hvar : sumSqDev (rows.map (fun r => r.djiaIndexed)) = 0 ∨
            sumSqDev (rows.map (fun r => r.cpiIndexed)) = 0) :
    corrRepr (rows.map (fun r => r.djiaIndexed)) (rows.map (fun r => r.cpiIndexed)) = none ∧
    sentiment (corrRepr (rows.map (fun r => r.djiaIndexed)) (rows.map (fun r => r.cpiIndexed)))
      = "Moderate correlation. Market is sensitive but not entirely dictated by CPI trends." ∧
    (buildReport rows).isOk = true := by
  have hcorr : corrRepr (rows.map (fun r => r.djiaIndexed))
      (rows.map (fun r => r.cpiIndexed)) = none := by
    unfold corrRepr
    rw [if_pos hvar]
  refine ⟨hcorr, by rw [hcorr]; rfl, ?_⟩
  have hne : rows ≠ [] := by
    intro h
    rw [h] at h2
    exact absurd h2 (by decide)
  obtain ⟨last, hlast⟩ := Option.isSome_iff_exists.mp (List.getLast?_isSome.mpr hne)
  unfold buildReport
  rw [hlast]
  rfl

/-- Witness for C8_nan_propagates: two rows with a constant macro-index
column. -/
theorem C8_nan_propagates_witness :
    corrRepr ([⟨1, 10, 5, 100, 100, 100⟩, ⟨2, 12, 5, 120, 100, 120⟩].map
        (fun r : ARow => r.djiaIndexed))
      ([⟨1, 10, 5, 100, 100, 100⟩, ⟨2, 12, 5, 120, 100, 120⟩].map
        (fun r : ARow => r.cpiIndexed)) = none ∧
    sentiment (corrRepr ([⟨1, 10, 5, 100, 100, 100⟩, ⟨2, 12, 5, 120, 100, 120⟩].map
        (fun r : ARow => r.djiaIndexed))
      ([⟨1, 10, 5, 100, 100, 100⟩, ⟨2, 12, 5, 120, 100, 120⟩].map
        (fun r : ARow => r.cpiIndexed)))
      = "Moderate correlation. Market is sensitive but not entirely dictated by CPI trends." ∧
    (buildReport [⟨1, 10, 5, 100, 100, 100⟩, ⟨2, 12, 5, 120, 100, 120⟩]).isOk = true :=
  C8_nan_propagates [⟨1, 10, 5, 100, 100, 100⟩, ⟨2, 12, 5, 120, 100, 120⟩]
    (by decide)
    (Or.inr (by norm_num [sumSqDev, mean]))

/-- Claim C5: on a successful run over strictly increasing cleaned series,
the result dates are strictly increasing, form a sublist of the price
calendar, are exactly the price dates whose macro anchor resolves, and
every removed price date precedes every kept date — only the leading
warm-up rows are dropped, nothing is inserted. -/
theorem C5_calendar (djia' cpi : List (Date × ℚ)) (s e : Date) (rows : List ARow)
    (hd : djia'.Pairwise (fun a b => a.1 < b.1)) (hc : cpi.Pairwise (fun a b => a.1 < b.1))
    (hok : get_data (djia'.map (fun y => (y.1, some y.2))) cpi s e = Except.ok rows) :
    (rows.map (fun r => r.date)).Pairwise (· < ·) ∧
    List.Sublist (rows.map (fun r => r.date)) (djia'.map (fun y => y.1)) ∧
    rows.map (fun r => r.date) =
      (djia'.filter (fun x =>
        (recentAnchor (djia'.map (fun y => y.1)) (filterRange cpi s e) x.1).isSome)).map
        (fun x => x.1) ∧
    ∀ x ∈ djia', recentAnchor (djia'.map (fun y => y.1)) (filterRange cpi s e) x.1 = none →
      ∀ r ∈ rows, x.1 < r.date := by
  have hF : (filterRange cpi s e).Pairwise (fun a b => a.1 < b.1) :=
    List.Pairwise.sublist (List.filter_sublist cpi) hc
  have hpd : (djia'.map (fun y => y.1)).Pairwise (· < ·) :=
    List.pairwise_map.mpr hd
  obtain ⟨d0, p0, c0, rest, hA, hrows⟩ := get_data_ok_elim hok
  have hAc := hA
  rw [alignRows_cleaned_char djia' cpi s e hd] at hAc
  have hdates : rows.map (fun r => r.date) =
      (djia'.filter (fun x =>
        (recentAnchor (djia'.map (fun y => y.1)) (filterRange cpi s e) x.1).isSome)).map
        (fun x => x.1) := by
    subst hrows
    have h1 : (((d0, p0, c0) :: rest).map (indexRow p0 c0)).map (fun r => r.date)
        = ((d0, p0, c0) :: rest).map (fun t => t.1) := by
      rw [List.map_map]
      rfl
    have h2 : djia'.filterMap (fun x =>
        ((recentAnchor (djia'.map (fun y => y.1)) (filterRange cpi s e) x.1).map
          (fun c => (x.1, x.2, c))).map (fun t => t.1))
        = djia'.filterMap (fun x =>
            (recentAnchor (djia'.map (fun y => y.1)) (filterRange cpi s e) x.1).map
              (fun _ => x.1)) := by
      apply List.filterMap_congr
      intro x _
      cases h : recentAnchor (djia'.map (fun y => y.1)) (filterRange cpi s e) x.1 <;>
        simp [h]
    rw [h1, ← hAc, List.map_filterMap, h2]
    exact filterMap_option_guard djia'
      (fun x => recentAnchor (djia'.map (fun y => y.1)) (filterRange cpi s e) x.1)
      (fun x => x.1)
  refine ⟨?_, ?_, hdates, ?_⟩
  · rw [hdates]
    exact List.Pairwise.sublist
      (List.Sublist.map _ (List.filter_sublist djia')) hpd
  · rw [hdates]
    exact List.Sublist.map _ (List.filter_sublist djia')
  · intro x hx hnone r hr
    have hrd : r.date ∈ rows.map (fun r => r.date) := List.mem_map_of_mem _ hr
    rw [hdates] at hrd
    obtain ⟨y, hy, hyd⟩ := List.mem_map.mp hrd
    obtain ⟨hymem, hysome⟩ := List.mem_filter.mp hy
    obtain ⟨c, hcsome⟩ := Option.isSome_iff_exists.mp hysome
    obtain ⟨cA, hcApd, hcAle, hcAF, -⟩ :=
      (recentAnchor_eq_some_iff _ _ hpd hF y.1 c).mp hcsome
    rw [recentAnchor_eq_none_iff] at hnone
    by_contra hlt
    have hyx : y.1 ≤ x.1 := by
      rw [hyd]
      exact Nat.le_of_not_lt hlt
    exact hnone cA c hcApd (Nat.le_trans hcAle hyx) hcAF

/-- Witness for C5_calendar: two price dates, macro starting at the
second — the first date is the dropped warm-up row. -/
theorem C5_calendar_witness :
    (([indexRow 11 5 (2, 11, 5)].map (fun r => r.date)).Pairwise (· < ·)) ∧
    List.Sublist ([indexRow 11 5 (2, 11, 5)].map (fun r => r.date))
      ([(1, (10 : ℚ)), (2, 11)].map (fun y => y.1)) ∧
    [indexRow 11 5 (2, 11, 5)].map (fun r => r.date) =
      ([(1, (10 : ℚ)), (2, 11)].filter (fun x =>
        (recentAnchor ([(1, (10 : ℚ)), (2, 11)].map (fun y => y.1))
          (filterRange [(2, (5 : ℚ))] 0 3) x.1).isSome)).map (fun x => x.1) ∧
    ∀ x ∈ [(1, (10 : ℚ)), (2, 11)],
      recentAnchor ([(1, (10 : ℚ)), (2, 11)].map (fun y => y.1))
        (filterRange [(2, (5 : ℚ))] 0 3) x.1 = none →
      ∀ r ∈ [indexRow 11 5 (2, 11, 5)], x.1 < r.date :=
  C5_calendar [(1, 10), (2, 11)] [(2, 5)] 0 3 [indexRow 11 5 (2, 11, 5)]
    (by decide) (by decide) rfl

end MacroApp
